import Mathlib

/-!
Verification development for `AvroHelper.h` (classes `AvroBinarySerializer`
and `AvroBinaryDeserializer`).

The header under verification is a thin wrapper over the Avro C++ library:
`avro::memoryOutputStream`, `avro::binaryEncoder`, `avro::validatingEncoder`,
`avro::memoryInputStream`, `avro::binaryDecoder`, `avro::validatingDecoder`,
`avro::encode` and `avro::decode` are declared elsewhere and only called from
the repository's source.  Those collaborators are modelled here from the
specification (growable chunked byte buffer, zig-zag varint integers,
length-prefixed strings, schema-validated writes/reads); the two wrapper
classes themselves are embedded method by method from `AvroHelper.h`.

Bytes are modelled as `Nat`, byte sequences as `List Nat`.  C++ methods that
may throw are embedded as functions returning an `Except` result paired with
the post-call object state (on a throw, the object survives unchanged).
-/

/-- Modelled from the spec: the error kinds of §7 (`InvalidArgument`,
`SchemaViolation`, `TruncatedInput`). -/
inductive AvroErr where
  | InvalidArgument
  | SchemaViolation
  | TruncatedInput
deriving DecidableEq, Repr

/-- The primitive value types exercised by the wrapper (spec §8 concrete
scenario: integers and strings). -/
inductive AvroType where
  | TInt
  | TString
deriving DecidableEq, Repr

/-- A supported value: an Avro `int`/`long` or a `string` (its bytes). -/
inductive AvroValue where
  | VInt (i : Int)
  | VString (s : List Nat)
deriving DecidableEq, Repr

/-- The type of a value. -/
def AvroValue.typeOf : AvroValue → AvroType
  | .VInt _ => .TInt
  | .VString _ => .TString

/-- Modelled from the spec: `avro::ValidSchema`, "a compiled description of a
record's field names, types, and order" — abstracted to the ordered list of
expected field types. -/
abbrev ValidSchema := List AvroType

/-! ## Binary encoding rules (spec §6: zig-zag varint integers,
length-prefixed strings) -/

/-- Zig-zag mapping of a signed integer to a non-negative integer
(0, -1, 1, -2, 2, ... ↦ 0, 1, 2, 3, 4, ...). -/
def zigzag (i : Int) : Nat :=
  if 0 ≤ i then 2 * i.toNat else 2 * (-i).toNat - 1

/-- Inverse of the zig-zag mapping. -/
def unzigzag (n : Nat) : Int :=
  if n % 2 = 0 then ((n / 2 : Nat) : Int) else -(((n + 1) / 2 : Nat) : Int)

/-- Little-endian base-128 varint encoding, fuelled for structural
recursion; the continuation bit is the high bit of each byte. -/
def encodeVarintAux : Nat → Nat → List Nat
  | 0, _ => []
  | fuel + 1, n =>
    if n < 128 then [n] else (n % 128 + 128) :: encodeVarintAux fuel (n / 128)

/-- Varint encoding of a natural number (fuel `n + 1` always suffices). -/
def encodeVarint (n : Nat) : List Nat :=
  encodeVarintAux (n + 1) n

/-- Varint decoding: returns the decoded number and the remaining bytes, or
`none` when the input ends before the final (high-bit-clear. i.e. `< 128`)
byte. -/
def decodeVarint : List Nat → Option (Nat × List Nat)
  | [] => none
  | b :: l =>
    if b < 128 then some (b, l)
    else
      match decodeVarint l with
      | some (m, r) => some (b % 128 + 128 * m, r)
      | none => none

/-- Binary encoding of one value: ints as zig-zag varints, strings as a
zig-zag varint length followed by the raw bytes. -/
def encodeValue : AvroValue → List Nat
  | .VInt i => encodeVarint (zigzag i)
  | .VString s => encodeVarint (zigzag (s.length : Int)) ++ s

/-- Binary encoding of a sequence of values, in order. -/
def encodeList : List AvroValue → List Nat
  | [] => []
  | v :: vs => encodeValue v ++ encodeList vs

/-- Binary decoding of one value of the requested type; `none` when the
input is exhausted before one complete value was read. -/
def decodeValue : AvroType → List Nat → Option (AvroValue × List Nat)
  | .TInt, l =>
    match decodeVarint l with
    | some (n, r) => some (.VInt (unzigzag n), r)
    | none => none
  | .TString, l =>
    match decodeVarint l with
    | some (n, r) =>
      if (unzigzag n).toNat ≤ r.length then
        some (.VString (r.take (unzigzag n).toNat), r.drop (unzigzag n).toNat)
      else none
    | none => none

/-! ## Growable byte buffer (spec §4.1, modelling `avro::memoryOutputStream`) -/

/-- Modelled from the spec: the `OutputBuffer` behind
`avro::memoryOutputStream`: a chunked, append-only byte accumulator with a
flush mark making appended bytes visible to readers. -/
structure MemoryOutputStream where
  chunkSize : Nat
  data : List Nat
  flushed : Nat
deriving DecidableEq, Repr

/-- Modelled from the spec: `avro::memoryOutputStream(chunkSize)` /
`create(chunkSize)`: "allocates an empty buffer ... `chunkSize` must be > 0;
fails with `InvalidArgument` otherwise." -/
def memoryOutputStream (chunkSize : Nat) : Except AvroErr MemoryOutputStream :=
  if chunkSize = 0 then .error .InvalidArgument
  else .ok ⟨chunkSize, [], 0⟩

/-- Append bytes at the end of the buffer. -/
def MemoryOutputStream.append (st : MemoryOutputStream) (bs : List Nat) :
    MemoryOutputStream :=
  { st with data := st.data ++ bs }

/-- Flush: make all appended bytes visible to readers (idempotent). -/
def MemoryOutputStream.flush (st : MemoryOutputStream) : MemoryOutputStream :=
  { st with flushed := st.data.length }

/-- Total bytes appended so far; valid before or after flush (spec §4.1). -/
def MemoryOutputStream.byteCount (st : MemoryOutputStream) : Nat :=
  st.data.length

/-- The bytes made visible by the last flush. -/
def MemoryOutputStream.flushedBytes (st : MemoryOutputStream) : List Nat :=
  st.data.take st.flushed

/-- Allocated capacity: the buffer grows by whole chunks, so capacity is the
least multiple of `chunkSize` covering the appended bytes. -/
def MemoryOutputStream.capacity (st : MemoryOutputStream) : Nat :=
  st.chunkSize * ((st.data.length + st.chunkSize - 1) / st.chunkSize)

/-! ## `AvroBinarySerializer` (AvroHelper.h lines 27–103) -/

/-- The wrapper's encoder state: `ChunkSize_` and `out_` are the class's own
fields; `schema_`/`schemaPos_` model the `avro::EncoderPtr e_` — `none` for
`avro::binaryEncoder()`, `some sch` with the validator's current field
position for `avro::validatingEncoder(sch, binaryEncoder())`. -/
structure AvroBinarySerializer where
  ChunkSize_ : Nat
  out_ : MemoryOutputStream
  schema_ : Option ValidSchema
  schemaPos_ : Nat
deriving DecidableEq, Repr

/-- `AvroBinarySerializer(size_t ChkSize)`: store the chunk size, create the
memory output stream, init a plain binary encoder over it. -/
def AvroBinarySerializer.create (ChkSize : Nat) :
    Except AvroErr AvroBinarySerializer :=
  (memoryOutputStream ChkSize).map fun out => ⟨ChkSize, out, none, 0⟩

/-- `AvroBinarySerializer(const avro::ValidSchema&, size_t)`: store the chunk
size, create the memory output stream, init a validating encoder over it. -/
def AvroBinarySerializer.createWithSchema (Schema : ValidSchema)
    (ChkSize : Nat) : Except AvroErr AvroBinarySerializer :=
  (memoryOutputStream ChkSize).map fun out => ⟨ChkSize, out, some Schema, 0⟩

/-- `Serialize(T& value)`: `avro::encode(*e_, value)`.  Without a schema the
value's binary encoding is appended unchecked; with a schema the value is
first checked against the expected field type at the validator's position
(wrong type or exhausted schema throws `SchemaViolation`, leaving the
object unchanged). -/
def AvroBinarySerializer.Serialize (s : AvroBinarySerializer)
    (value : AvroValue) : Except AvroErr Unit × AvroBinarySerializer :=
  match s.schema_ with
  | none => (.ok (), { s with out_ := s.out_.append (encodeValue value) })
  | some sch =>
    match sch[s.schemaPos_]? with
    | some t =>
      if t = value.typeOf then
        (.ok (), { s with out_ := s.out_.append (encodeValue value),
                          schemaPos_ := s.schemaPos_ + 1 })
      else (.error .SchemaViolation, s)
    | none => (.error .SchemaViolation, s)

/-- `Finish()`: `out_->flush()`. -/
def AvroBinarySerializer.Finish (s : AvroBinarySerializer) :
    AvroBinarySerializer :=
  { s with out_ := s.out_.flush }

/-- `Size()`: `out_->byteCount()`. -/
def AvroBinarySerializer.Size (s : AvroBinarySerializer) : Nat :=
  s.out_.byteCount

/-- `Buffer()`: read `out_->byteCount()` bytes out of an input stream over
`out_` into a fresh vector.  The method is `const`; the pair's second
component is the object after the call. -/
def AvroBinarySerializer.Buffer (s : AvroBinarySerializer) :
    List Nat × AvroBinarySerializer :=
  (s.out_.data.take s.out_.byteCount, s)

/-- `Reset()`: flush and release the old stream (its contents are
discarded), create a fresh stream with the stored `ChunkSize_`, and re-init
the encoder over it (which rewinds the validator, if any, to the first
field). -/
def AvroBinarySerializer.Reset (s : AvroBinarySerializer) :
    Except AvroErr AvroBinarySerializer :=
  (memoryOutputStream s.ChunkSize_).map fun out =>
    { s with out_ := out, schemaPos_ := 0 }

/-- Run `Serialize` over a list of values in order, stopping at the first
error (the pair keeps the object state either way). -/
def serializeAll (s : AvroBinarySerializer) :
    List AvroValue → Except AvroErr Unit × AvroBinarySerializer
  | [] => (.ok (), s)
  | v :: vs =>
    match s.Serialize v with
    | (.ok _, s') => serializeAll s' vs
    | (.error e, s') => (.error e, s')

/-! ## `AvroBinaryDeserializer` (AvroHelper.h lines 112–166) -/

/-- The wrapper's decoder state: `input` models the `avro::InputStream in_`
view together with the decoder's read cursor (the not-yet-consumed bytes);
`schema_`/`schemaPos_` model the `avro::DecoderPtr d_` as for the encoder. -/
structure AvroBinaryDeserializer where
  input : List Nat
  schema_ : Option ValidSchema
  schemaPos_ : Nat
deriving DecidableEq, Repr

/-- `AvroBinaryDeserializer(const avro::OutputStream *out)`: a binary
decoder over `avro::memoryInputStream(*out)`, a read-only view of the
stream's `byteCount()` bytes.  The stream is accessed through a `const`
pointer; the pair's second component is the stream after construction. -/
def AvroBinaryDeserializer.fromStream (out : MemoryOutputStream) :
    AvroBinaryDeserializer × MemoryOutputStream :=
  (⟨out.data.take out.byteCount, none, 0⟩, out)

/-- `AvroBinaryDeserializer(const avro::ValidSchema&, const
avro::OutputStream*)`: as `fromStream`, with a validating decoder. -/
def AvroBinaryDeserializer.fromStreamWithSchema (Schema : ValidSchema)
    (out : MemoryOutputStream) : AvroBinaryDeserializer × MemoryOutputStream :=
  (⟨out.data.take out.byteCount, some Schema, 0⟩, out)

/-- `AvroBinaryDeserializer(const uint8_t* data, size_t length)`: a binary
decoder over `avro::memoryInputStream(data, length)`. -/
def AvroBinaryDeserializer.fromBytes (data : List Nat) (length : Nat) :
    AvroBinaryDeserializer :=
  ⟨data.take length, none, 0⟩

/-- `AvroBinaryDeserializer(const avro::ValidSchema&, const uint8_t*,
size_t)`: as `fromBytes`, with a validating decoder. -/
def AvroBinaryDeserializer.fromBytesWithSchema (Schema : ValidSchema)
    (data : List Nat) (length : Nat) : AvroBinaryDeserializer :=
  ⟨data.take length, some Schema, 0⟩

/-- `Deserialize(T& data_object)`: `avro::decode(*d_, data_object)` for a
value of type `t`.  A validating decoder first checks `t` against the
schema's expected field (`SchemaViolation` on mismatch); running out of
input mid-value throws `TruncatedInput`.  On a throw the object state is
unchanged and no value is produced. -/
def AvroBinaryDeserializer.Deserialize (d : AvroBinaryDeserializer)
    (t : AvroType) : Except AvroErr AvroValue × AvroBinaryDeserializer :=
  match d.schema_ with
  | none =>
    match decodeValue t d.input with
    | some (v, rest) => (.ok v, { d with input := rest })
    | none => (.error .TruncatedInput, d)
  | some sch =>
    match sch[d.schemaPos_]? with
    | some expected =>
      if expected = t then
        match decodeValue t d.input with
        | some (v, rest) =>
          (.ok v, { d with input := rest, schemaPos_ := d.schemaPos_ + 1 })
        | none => (.error .TruncatedInput, d)
      else (.error .SchemaViolation, d)
    | none => (.error .SchemaViolation, d)

/-- Run `Deserialize` over a list of requested types in order, collecting
the decoded values and stopping at the first error. -/
def deserializeAll (d : AvroBinaryDeserializer) :
    List AvroType → Except AvroErr (List AvroValue) × AvroBinaryDeserializer
  | [] => (.ok [], d)
  | t :: ts =>
    match d.Deserialize t with
    | (.ok v, d') =>
      match deserializeAll d' ts with
      | (.ok vs, d'') => (.ok (v :: vs), d'')
      | (.error e, d'') => (.error e, d'')
    | (.error e, d') => (.error e, d')

/-- Construct a serializer from an optional schema, dispatching to the two
constructors of `AvroBinarySerializer`. -/
def mkSerializer : Option ValidSchema → Nat → Except AvroErr AvroBinarySerializer
  | none, c => AvroBinarySerializer.create c
  | some sch, c => AvroBinarySerializer.createWithSchema sch c

/-- Construct a deserializer over an output stream from an optional schema,
dispatching to the two stream constructors of `AvroBinaryDeserializer`. -/
def mkDeserializer :
    Option ValidSchema → MemoryOutputStream →
      AvroBinaryDeserializer × MemoryOutputStream
  | none, out => AvroBinaryDeserializer.fromStream out
  | some sch, out => AvroBinaryDeserializer.fromStreamWithSchema sch out

/-- A schema (when present) accepts a value sequence when the sequence's
types are an initial segment of the schema's field types. -/
def SchemaAccepts : Option ValidSchema → List AvroValue → Prop
  | none, _ => True
  | some sch, V => ∃ r, sch = V.map AvroValue.typeOf ++ r

/-! ## Encoding round-trip lemmas -/

lemma decodeVarint_encodeVarintAux (fuel : Nat) :
    ∀ (n : Nat), n < fuel → ∀ (rest : List Nat),
      decodeVarint (encodeVarintAux fuel n ++ rest) = some (n, rest) := by
  induction fuel with
  | zero => intro n h; omega
  | succ f ih =>
    intro n h rest
    by_cases h128 : n < 128
    · simp [encodeVarintAux, h128, decodeVarint]
    · have hdiv : n / 128 < n := Nat.div_lt_self (by omega) (by omega)
      have hfuel : n / 128 < f := by omega
      simp only [encodeVarintAux, if_neg h128, List.cons_append, decodeVarint]
      rw [if_neg (by omega)]
      rw [ih (n / 128) hfuel rest]
      simp only [Option.some.injEq, Prod.mk.injEq, and_true]
      omega

lemma decodeVarint_encodeVarint (n : Nat) (rest : List Nat) :
    decodeVarint (encodeVarint n ++ rest) = some (n, rest) :=
  decodeVarint_encodeVarintAux (n + 1) n (Nat.lt_succ_self n) rest

lemma unzigzag_zigzag (i : Int) : unzigzag (zigzag i) = i := by
  unfold zigzag unzigzag
  by_cases h : 0 ≤ i
  · rw [if_pos h]
    have h2 : 2 * i.toNat % 2 = 0 := by omega
    rw [if_pos h2]
    omega
  · rw [if_neg h]
    have h1 : 1 ≤ (-i).toNat := by omega
    have h2 : ¬ (2 * (-i).toNat - 1) % 2 = 0 := by omega
    rw [if_neg h2]
    omega

lemma zigzag_natCast (L : Nat) : zigzag (L : Int) = 2 * L := by
  unfold zigzag
  rw [if_pos (by omega)]
  omega

lemma decodeValue_encodeValue (v : AvroValue) (rest : List Nat) :
    decodeValue v.typeOf (encodeValue v ++ rest) = some (v, rest) := by
  cases v with
  | VInt i =>
    simp [AvroValue.typeOf, encodeValue, decodeValue,
      decodeVarint_encodeVarint, unzigzag_zigzag]
  | VString s =>
    simp only [AvroValue.typeOf, encodeValue, decodeValue, List.append_assoc]
    rw [decodeVarint_encodeVarint]
    have hz : unzigzag (zigzag (s.length : Int)) = (s.length : Int) :=
      unzigzag_zigzag _
    simp only [hz, Int.toNat_natCast]
    rw [if_pos (by simp)]
    rw [List.take_left, List.drop_left]

/-! ## Characterisation of `serializeAll` and `deserializeAll` -/

lemma serializeAll_no_schema :
    ∀ (V : List AvroValue) (cs : Nat) (out : MemoryOutputStream) (sp : Nat),
      serializeAll ⟨cs, out, none, sp⟩ V =
        (.ok (), ⟨cs, out.append (encodeList V), none, sp⟩) := by
  intro V
  induction V with
  | nil =>
    intro cs out sp
    simp [serializeAll, encodeList, MemoryOutputStream.append]
  | cons v vs ih =>
    intro cs out sp
    rw [serializeAll]
    show serializeAll ⟨cs, out.append (encodeValue v), none, sp⟩ vs = _
    rw [ih]
    simp [MemoryOutputStream.append, encodeList]

lemma encodeList_cons_append (v : AvroValue) (vs : List AvroValue)
    (extra : List Nat) :
    encodeList (v :: vs) ++ extra = encodeValue v ++ (encodeList vs ++ extra) := by
  rw [encodeList, List.append_assoc]

lemma serializeAll_schema :
    ∀ (V : List AvroValue) (cs : Nat) (out : MemoryOutputStream)
      (sch : ValidSchema) (sp : Nat) (r : List AvroType),
      sch.drop sp = V.map AvroValue.typeOf ++ r →
      serializeAll ⟨cs, out, some sch, sp⟩ V =
        (.ok (), ⟨cs, out.append (encodeList V), some sch, sp + V.length⟩) := by
  intro V
  induction V with
  | nil =>
    intro cs out sch sp r hdrop
    simp [serializeAll, encodeList, MemoryOutputStream.append]
  | cons v vs ih =>
    intro cs out sch sp r hdrop
    have hget : sch[sp]? = some v.typeOf := by
      have h0 : (sch.drop sp)[0]? = some v.typeOf := by
        rw [hdrop]; simp
      rw [List.getElem?_drop] at h0
      simpa using h0
    have hdrop' : sch.drop (sp + 1) = vs.map AvroValue.typeOf ++ r := by
      have h1 : sch.drop (sp + 1) = (sch.drop sp).drop 1 := by
        rw [List.drop_drop]
      rw [h1, hdrop]
      simp
    rw [serializeAll]
    rw [AvroBinarySerializer.Serialize]
    simp only [hget, if_true]
    simp only [ih cs (out.append (encodeValue v)) sch (sp + 1) r hdrop']
    simp [MemoryOutputStream.append, encodeList]
    omega

lemma deserializeAll_no_schema :
    ∀ (V : List AvroValue) (extra : List Nat) (sp : Nat),
      deserializeAll ⟨encodeList V ++ extra, none, sp⟩ (V.map AvroValue.typeOf) =
        (.ok V, ⟨extra, none, sp⟩) := by
  intro V
  induction V with
  | nil =>
    intro extra sp
    simp [deserializeAll, encodeList]
  | cons v vs ih =>
    intro extra sp
    rw [List.map_cons, deserializeAll]
    rw [AvroBinaryDeserializer.Deserialize]
    rw [encodeList_cons_append]
    rw [decodeValue_encodeValue]
    simp only [ih extra sp]

lemma deserializeAll_schema :
    ∀ (V : List AvroValue) (extra : List Nat) (sch : ValidSchema)
      (sp : Nat) (r : List AvroType),
      sch.drop sp = V.map AvroValue.typeOf ++ r →
      deserializeAll ⟨encodeList V ++ extra, some sch, sp⟩
          (V.map AvroValue.typeOf) =
        (.ok V, ⟨extra, some sch, sp + V.length⟩) := by
  intro V
  induction V with
  | nil =>
    intro extra sch sp r hdrop
    simp [deserializeAll, encodeList]
  | cons v vs ih =>
    intro extra sch sp r hdrop
    have hget : sch[sp]? = some v.typeOf := by
      have h0 : (sch.drop sp)[0]? = some v.typeOf := by
        rw [hdrop]; simp
      rw [List.getElem?_drop] at h0
      simpa using h0
    have hdrop' : sch.drop (sp + 1) = vs.map AvroValue.typeOf ++ r := by
      have h1 : sch.drop (sp + 1) = (sch.drop sp).drop 1 := by
        rw [List.drop_drop]
      rw [h1, hdrop]
      simp
    rw [List.map_cons, deserializeAll]
    rw [AvroBinaryDeserializer.Deserialize]
    rw [encodeList_cons_append]
    simp only [hget, if_true]
    rw [decodeValue_encodeValue]
    simp only [ih extra sch (sp + 1) r hdrop']
    simp
    omega

/-! ## Helper lemmas -/

lemma le_capacity (c len : Nat) (hc : 0 < c) :
    len ≤ c * ((len + c - 1) / c) := by
  have h : c * ((len + c - 1) / c) + (len + c - 1) % c = len + c - 1 :=
    Nat.div_add_mod (len + c - 1) c
  have hr : (len + c - 1) % c < c := Nat.mod_lt _ hc
  generalize hM : c * ((len + c - 1) / c) = M at h
  omega

/-! ## Claims -/

/-- Claim C1: for every sequence of supported values V serialized in order
by an encoder (with or without a schema, the same schema on both sides), a
decoder constructed over the resulting bytes and asked to deserialize the
same type sequence in the same order reproduces V exactly. -/
theorem c1_round_trip (oSch : Option ValidSchema) (c : Nat)
    (V : List AvroValue) (hc : 0 < c) (hacc : SchemaAccepts oSch V) :
    ∃ s0 enc,
      mkSerializer oSch c = .ok s0 ∧
      serializeAll s0 V = (.ok (), enc) ∧
      (deserializeAll (mkDeserializer oSch enc.Finish.out_).1
        (V.map AvroValue.typeOf)).1 = .ok V := by
  have hc0 : ¬ c = 0 := by omega
  cases oSch with
  | none =>
    refine ⟨⟨c, ⟨c, [], 0⟩, none, 0⟩, ⟨c, ⟨c, encodeList V, 0⟩, none, 0⟩,
      ?_, ?_, ?_⟩
    · simp [mkSerializer, AvroBinarySerializer.create, memoryOutputStream, Except.map, hc0]
    · rw [serializeAll_no_schema]
      simp [MemoryOutputStream.append]
    · have h := deserializeAll_no_schema V [] 0
      rw [List.append_nil] at h
      simp only [mkDeserializer, AvroBinaryDeserializer.fromStream,
        AvroBinarySerializer.Finish, MemoryOutputStream.flush,
        MemoryOutputStream.byteCount, List.take_length]
      rw [h]
  | some sch =>
    obtain ⟨r, hr⟩ := hacc
    have hdrop : sch.drop 0 = V.map AvroValue.typeOf ++ r := by
      simpa using hr
    refine ⟨⟨c, ⟨c, [], 0⟩, some sch, 0⟩,
      ⟨c, ⟨c, encodeList V, 0⟩, some sch, V.length⟩, ?_, ?_, ?_⟩
    · simp [mkSerializer, AvroBinarySerializer.createWithSchema,
        memoryOutputStream, Except.map, hc0]
    · rw [serializeAll_schema V c _ sch 0 r hdrop]
      simp [MemoryOutputStream.append]
    · have h := deserializeAll_schema V [] sch 0 r hdrop
      rw [List.append_nil] at h
      simp only [mkDeserializer, AvroBinaryDeserializer.fromStreamWithSchema,
        AvroBinarySerializer.Finish, MemoryOutputStream.flush,
        MemoryOutputStream.byteCount, List.take_length]
      rw [h]

/-- Witness for C1: the spec's concrete scenario — chunk size 64, no schema,
encode the integer 300 then the string "avro" (bytes 97, 118, 114, 111),
finish, decode an int then a string, and get 300 and "avro" back in order. -/
theorem c1_round_trip_witness :
    0 < 64 ∧
    SchemaAccepts none [.VInt 300, .VString [97, 118, 114, 111]] ∧
    (∃ s0 enc,
      mkSerializer none 64 = .ok s0 ∧
      serializeAll s0 [.VInt 300, .VString [97, 118, 114, 111]] =
        (.ok (), enc) ∧
      (deserializeAll (mkDeserializer none enc.Finish.out_).1
        ([AvroValue.VInt 300,
          AvroValue.VString [97, 118, 114, 111]].map AvroValue.typeOf)).1 =
        .ok [.VInt 300, .VString [97, 118, 114, 111]]) :=
  ⟨by decide, trivial,
    c1_round_trip none 64 [.VInt 300, .VString [97, 118, 114, 111]]
      (by decide) trivial⟩

/-- Claim C2: constructing an encoder (creating its growable buffer) with
chunkSize 0 fails with `InvalidArgument`; for every chunkSize > 0
construction succeeds with an empty buffer that grows in chunkSize-byte
increments. -/
theorem c2_chunk_size (c : Nat) (sch : ValidSchema) (hc : 0 < c) :
    AvroBinarySerializer.create 0 = .error .InvalidArgument ∧
    AvroBinarySerializer.createWithSchema sch 0 = .error .InvalidArgument ∧
    ∃ s t, AvroBinarySerializer.create c = .ok s ∧
      AvroBinarySerializer.createWithSchema sch c = .ok t ∧
      s.out_.data = [] ∧ t.out_.data = [] ∧ s.Size = 0 ∧
      s.out_.chunkSize = c ∧
      ∀ bs : List Nat,
        c ∣ (s.out_.append bs).capacity ∧
        (s.out_.append bs).byteCount ≤ (s.out_.append bs).capacity := by
  have hc0 : ¬ c = 0 := by omega
  refine ⟨rfl, rfl, ⟨c, ⟨c, [], 0⟩, none, 0⟩, ⟨c, ⟨c, [], 0⟩, some sch, 0⟩,
    ?_, ?_, rfl, rfl, rfl, rfl, ?_⟩
  · simp [AvroBinarySerializer.create, memoryOutputStream, Except.map, hc0]
  · simp [AvroBinarySerializer.createWithSchema, memoryOutputStream, Except.map, hc0]
  · intro bs
    constructor
    · exact dvd_mul_right c _
    · simp only [MemoryOutputStream.append, MemoryOutputStream.byteCount,
        MemoryOutputStream.capacity, List.nil_append]
      exact le_capacity c bs.length hc

/-- Witness for C2: chunk size 0 is rejected and chunk size 64 accepted,
with the buffer growing in whole 64-byte chunks. -/
theorem c2_chunk_size_witness :
    0 < 64 ∧
    (AvroBinarySerializer.create 0 = .error .InvalidArgument ∧
     AvroBinarySerializer.createWithSchema [.TInt] 0 = .error .InvalidArgument ∧
     ∃ s t, AvroBinarySerializer.create 64 = .ok s ∧
       AvroBinarySerializer.createWithSchema [.TInt] 64 = .ok t ∧
       s.out_.data = [] ∧ t.out_.data = [] ∧ s.Size = 0 ∧
       s.out_.chunkSize = 64 ∧
       ∀ bs : List Nat,
         64 ∣ (s.out_.append bs).capacity ∧
         (s.out_.append bs).byteCount ≤ (s.out_.append bs).capacity) :=
  ⟨by decide, c2_chunk_size 64 [.TInt] (by decide)⟩

/-- Claim C3: for every encoder, after `Finish()` has been called, the value
returned by `Size()` equals the length of the byte sequence returned by
`Buffer()`. -/
theorem c3_size_eq_buffer_length (s : AvroBinarySerializer) :
    ((s.Finish).Buffer).1.length = (s.Finish).Size := by
  simp [AvroBinarySerializer.Finish, AvroBinarySerializer.Buffer,
    AvroBinarySerializer.Size, MemoryOutputStream.flush,
    MemoryOutputStream.byteCount]

/-- Claim C4: `Finish()` is idempotent — calling it twice yields the same
subsequent `Buffer()` contents and `Size()` value as calling it once. -/
theorem c4_finish_idempotent (s : AvroBinarySerializer) :
    (s.Finish.Finish).Buffer.1 = (s.Finish).Buffer.1 ∧
    (s.Finish.Finish).Size = (s.Finish).Size := by
  have h : s.Finish.Finish = s.Finish := by
    simp [AvroBinarySerializer.Finish, MemoryOutputStream.flush]
  rw [h]
  exact ⟨rfl, rfl⟩

/-- Counterexample to Claim C5 as stated: a schema-bound encoder after
`Reset()` keeps its schema binding, so its serialize/finish cycle does NOT
behave identically to a newly constructed encoder with the same chunk size
(which is unchecked): serializing a string under the reset schema-bound
encoder fails with `SchemaViolation` while the fresh encoder accepts it,
and the two cycles end with different `Size()` values. -/
theorem c5_reset_counterexample :
    AvroBinarySerializer.Reset ⟨1, ⟨1, [0], 1⟩, some [.TInt], 1⟩ =
      .ok ⟨1, ⟨1, [], 0⟩, some [.TInt], 0⟩ ∧
    AvroBinarySerializer.create 1 = .ok ⟨1, ⟨1, [], 0⟩, none, 0⟩ ∧
    ((⟨1, ⟨1, [], 0⟩, some [.TInt], 0⟩ : AvroBinarySerializer).Serialize
        (.VString [])).1 = .error .SchemaViolation ∧
    ((⟨1, ⟨1, [], 0⟩, none, 0⟩ : AvroBinarySerializer).Serialize
        (.VString [])).1 = .ok () ∧
    ((⟨1, ⟨1, [], 0⟩, some [.TInt], 0⟩ : AvroBinarySerializer).Serialize
        (.VString [])).2.Finish.Size ≠
      ((⟨1, ⟨1, [], 0⟩, none, 0⟩ : AvroBinarySerializer).Serialize
        (.VString [])).2.Finish.Size := by
  refine ⟨rfl, rfl, rfl, rfl, ?_⟩
  decide

/-- Claim C5 (amended): for every encoder with a positive stored chunk size,
after `Reset()` the encoder's `Size()` is 0 and a subsequent
serialize/finish cycle behaves identically to that of a newly constructed
encoder with the same chunk size AND the same schema binding (none, or the
same schema): the reset encoder IS the state produced by that fresh
construction. -/
theorem c5_reset_amended (s : AvroBinarySerializer) (hc : 0 < s.ChunkSize_) :
    ∃ t, s.Reset = .ok t ∧ t.Size = 0 ∧
      mkSerializer s.schema_ s.ChunkSize_ = .ok t := by
  have hc0 : ¬ s.ChunkSize_ = 0 := by omega
  refine ⟨{ s with out_ := ⟨s.ChunkSize_, [], 0⟩, schemaPos_ := 0 }, ?_, rfl, ?_⟩
  · simp [AvroBinarySerializer.Reset, memoryOutputStream, Except.map, hc0]
  · cases hsch : s.schema_ with
    | none =>
      simp [mkSerializer, AvroBinarySerializer.create, memoryOutputStream,
        Except.map, hc0, hsch]
    | some sch =>
      simp [mkSerializer, AvroBinarySerializer.createWithSchema,
        memoryOutputStream, Except.map, hc0, hsch]

/-- Witness for the amended C5: resetting a schema-bound encoder that has
already written bytes yields size 0 and exactly the state of a fresh
construction with the same chunk size and schema. -/
theorem c5_reset_amended_witness :
    0 < (64 : Nat) ∧
    ∃ t, AvroBinarySerializer.Reset ⟨64, ⟨64, [1, 2], 2⟩, some [.TInt], 1⟩ =
        .ok t ∧ t.Size = 0 ∧ mkSerializer (some [.TInt]) 64 = .ok t :=
  ⟨by decide,
    c5_reset_amended ⟨64, ⟨64, [1, 2], 2⟩, some [.TInt], 1⟩ (by decide)⟩

/-- Claim C6: for every decoder whose remaining input is shorter than one
complete value of the requested type (decoding hits end of input), and whose
schema — if any — expects that type next, `Deserialize` fails with
`TruncatedInput` rather than returning a partial result, leaves the decoder
unchanged, and a repeated `Deserialize` call fails with `TruncatedInput`
again. -/
theorem c6_truncated_input (d : AvroBinaryDeserializer) (t : AvroType)
    (hdec : decodeValue t d.input = none)
    (hsch : d.schema_ = none ∨
      ∃ sch, d.schema_ = some sch ∧ sch[d.schemaPos_]? = some t) :
    d.Deserialize t = (.error .TruncatedInput, d) ∧
    ((d.Deserialize t).2).Deserialize t = (.error .TruncatedInput, d) := by
  have h1 : d.Deserialize t = (.error .TruncatedInput, d) := by
    rcases hsch with h | ⟨sch, hs, hget⟩
    · rw [AvroBinaryDeserializer.Deserialize, h, hdec]
    · simp [AvroBinaryDeserializer.Deserialize, hs, hget, hdec]
  refine ⟨h1, ?_⟩
  rw [h1]
  exact h1

/-- Witness for C6: one byte `0x80` announces a varint continuation that
never arrives; decoding an int fails with `TruncatedInput` twice. -/
theorem c6_truncated_input_witness :
    decodeValue .TInt ([128] : List Nat) = none ∧
    ((⟨[128], none, 0⟩ : AvroBinaryDeserializer).Deserialize .TInt =
        (.error .TruncatedInput, ⟨[128], none, 0⟩) ∧
      (((⟨[128], none, 0⟩ : AvroBinaryDeserializer).Deserialize .TInt).2).Deserialize
          .TInt = (.error .TruncatedInput, ⟨[128], none, 0⟩)) :=
  ⟨rfl, c6_truncated_input ⟨[128], none, 0⟩ .TInt rfl (Or.inl rfl)⟩

/-- Claim C7: for every encoder bound to a schema, serializing a value whose
shape disagrees with that schema (expected field exhausted — wrong field
count — or wrong type at the current field) fails with `SchemaViolation`,
and the failure does not corrupt the bytes already flushed to the buffer:
the object after the failed call has the same flushed bytes. -/
theorem c7_schema_violation (s : AvroBinarySerializer) (sch : ValidSchema)
    (v : AvroValue) (hs : s.schema_ = some sch)
    (hmis : sch[s.schemaPos_]? = none ∨
      ∃ t, sch[s.schemaPos_]? = some t ∧ t ≠ v.typeOf) :
    s.Serialize v = (.error .SchemaViolation, s) ∧
    (s.Serialize v).2.out_.flushedBytes = s.out_.flushedBytes := by
  have h1 : s.Serialize v = (.error .SchemaViolation, s) := by
    rcases hmis with h | ⟨t, hget, hne⟩
    · simp [AvroBinarySerializer.Serialize, hs, h]
    · simp [AvroBinarySerializer.Serialize, hs, hget, hne]
  refine ⟨h1, ?_⟩
  rw [h1]

/-- Witness for C7: a one-field int schema whose validator is already past
the last field rejects a further write and leaves the flushed bytes as they
were. -/
theorem c7_schema_violation_witness :
    ([AvroType.TInt] : ValidSchema)[(1 : Nat)]? = none ∧
    ((⟨64, ⟨64, [7], 1⟩, some [.TInt], 1⟩ : AvroBinarySerializer).Serialize
        (.VInt 0) =
        (.error .SchemaViolation, ⟨64, ⟨64, [7], 1⟩, some [.TInt], 1⟩) ∧
      ((⟨64, ⟨64, [7], 1⟩, some [.TInt], 1⟩ : AvroBinarySerializer).Serialize
          (.VInt 0)).2.out_.flushedBytes =
        (⟨64, ⟨64, [7], 1⟩, some [.TInt], 1⟩ :
          AvroBinarySerializer).out_.flushedBytes) :=
  ⟨rfl, c7_schema_violation ⟨64, ⟨64, [7], 1⟩, some [.TInt], 1⟩ [.TInt]
    (.VInt 0) rfl (Or.inl rfl)⟩

/-- Claim C8: `Buffer()` is side-effect-free: it leaves the encoder's state
(hence its stored bytes and `Size()`) unchanged, returns a contiguous copy
of length `byteCount()` whose flushed prefix is exactly the buffer's flushed
bytes, and two consecutive `Buffer()` calls return equal sequences. -/
theorem c8_buffer_side_effect_free (s : AvroBinarySerializer) :
    (s.Buffer).2 = s ∧
    (s.Buffer).1.length = s.Size ∧
    ((s.Buffer).2.Buffer).1 = (s.Buffer).1 ∧
    (s.Buffer).1.take s.out_.flushed = s.out_.flushedBytes := by
  refine ⟨rfl, ?_, rfl, ?_⟩
  · simp [AvroBinarySerializer.Buffer, AvroBinarySerializer.Size,
      MemoryOutputStream.byteCount]
  · simp [AvroBinarySerializer.Buffer, MemoryOutputStream.byteCount,
      MemoryOutputStream.flushedBytes]

/-- Claim C9: `Finish()` does not change the byte count: `Size()` returns
the same value immediately before and immediately after a `Finish()` call. -/
theorem c9_finish_preserves_size (s : AvroBinarySerializer) :
    (s.Finish).Size = s.Size := rfl

/-- Claim C10: constructing an `AvroBinaryDeserializer` from an
`OutputStream` (with or without a schema) leaves that stream unchanged —
same value, byte count and stored contents — and the decoder starts from a
snapshot of the stream's bytes, so decoding through it never touches the
source stream. -/
theorem c10_constructor_leaves_stream (out : MemoryOutputStream)
    (sch : ValidSchema) :
    (AvroBinaryDeserializer.fromStream out).2 = out ∧
    (AvroBinaryDeserializer.fromStreamWithSchema sch out).2 = out ∧
    (AvroBinaryDeserializer.fromStream out).2.byteCount = out.byteCount ∧
    (AvroBinaryDeserializer.fromStream out).2.data = out.data ∧
    (AvroBinaryDeserializer.fromStream out).1.input =
      out.data.take out.byteCount ∧
    (AvroBinaryDeserializer.fromStreamWithSchema sch out).1.input =
      out.data.take out.byteCount :=
  ⟨rfl, rfl, rfl, rfl, rfl, rfl⟩
